import Mathlib

/-!
# Verification of the dumbfi portfolio engine

A shallow embedding, in Lean 4, of the hard core of the `dumbfi`
repository: the tax-aware rebalancing engine (Go package `finance`) and
the fee-based backtesting engine with its statistics calculator (Go
package `backtester`).

Modelling conventions:

* Go `float64` values are modelled as exact rationals (`ℚ`).  The
  claims under study are algebraic identities about the arithmetic the
  code performs, so exact arithmetic is the faithful reading; a second,
  clearly marked model (`E := Option ℚ`) tracks IEEE non-finiteness
  (`Inf`/`NaN`) where a claim is specifically about division by zero.
* Go `time.Time` is modelled as an integer timestamp measured in hours,
  so that the source comparison `asOf.Sub(purchaseDate) > 365*24*time.Hour`
  becomes `asOf - purchaseDate > 365 * 24`.
* Go slices become `List`s, Go maps become association lists or
  `String → Option ℚ` lookups; a Go indexed map read `m[k]` that yields
  the zero value on a missing key becomes `(lookup k).getD 0`.
* Go's `sort.Slice` is modelled by `List.insertionSort` with the
  corresponding non-strict comparator.  The Go sort is unspecified on
  ties; no claim under study depends on the relative order of equal
  keys.
* All embedded code is pure; the Go functions under study neither
  perform I/O nor mutate their inputs (the lot selectors copy before
  sorting), so purity is the faithful reading.
-/

namespace DumbFi

namespace Finance

/-- A purchase lot: `Shares`, per-share `CostBasis`, and `PurchaseDate`
(integer timestamp in hours).  From `finance.TaxLot`. -/
structure TaxLot where
  shares : ℚ
  costBasis : ℚ
  purchaseDate : ℤ
deriving DecidableEq

/-- `lot.Value(price)` — market value of a lot. -/
def TaxLot.value (lot : TaxLot) (price : ℚ) : ℚ :=
  lot.shares * price

/-- `lot.TotalCost()` — acquisition cost of a lot. -/
def TaxLot.totalCost (lot : TaxLot) : ℚ :=
  lot.shares * lot.costBasis

/-- A holding: ticker, target weight and its tax lots.  From
`finance.Holding`. -/
structure Holding where
  ticker : String
  targetWeight : ℚ
  lots : List TaxLot

/-- `finance.HoldingValue`: sum of `lot.Value(price)` over the lots. -/
def HoldingValue (h : Holding) (price : ℚ) : ℚ :=
  (h.lots.map (fun lot => lot.value price)).sum

/-- `finance.PortfolioValue`: sum of holding values over holdings whose
ticker is present in the price map (the Go code checks the `ok` flag of
the map read and skips missing tickers). -/
def PortfolioValue (holdings : List Holding) (prices : String → Option ℚ) : ℚ :=
  (holdings.map (fun h =>
    match prices h.ticker with
    | some price => HoldingValue h price
    | none => 0)).sum

/-- `finance.UnrealizedGain`. -/
def UnrealizedGain (lot : TaxLot) (price : ℚ) : ℚ :=
  lot.value price - lot.totalCost

/-- `finance.IsLongTerm`: held for more than one year
(`asOf.Sub(purchaseDate) > 365*24*time.Hour`, in hours). -/
def IsLongTerm (lot : TaxLot) (asOf : ℤ) : Prop :=
  asOf - lot.purchaseDate > 365 * 24

instance (lot : TaxLot) (asOf : ℤ) : Decidable (IsLongTerm lot asOf) :=
  inferInstanceAs (Decidable (_ > _))

/-- `finance.TaxRates`. -/
structure TaxRates where
  shortTerm : ℚ
  longTerm : ℚ

/-- `finance.DefaultTaxRates`. -/
def DefaultTaxRates : TaxRates :=
  { shortTerm := 35/100, longTerm := 15/100 }

/-- `finance.TaxCost`: gain times the applicable rate. -/
def TaxCost (lot : TaxLot) (price : ℚ) (asOf : ℤ) (rates : TaxRates) : ℚ :=
  let gain := UnrealizedGain lot price
  if IsLongTerm lot asOf then gain * rates.longTerm else gain * rates.shortTerm

/-- Comparator of `finance.FIFO` (ascending purchase date); the
non-strict form of the Go `Before` comparison handed to `sort.Slice`. -/
def fifoLE (a b : TaxLot) : Prop :=
  a.purchaseDate ≤ b.purchaseDate

/-- Comparator of `finance.LIFO` (descending purchase date). -/
def lifoLE (a b : TaxLot) : Prop :=
  b.purchaseDate ≤ a.purchaseDate

/-- Comparator of `finance.HighestCostFirst` (descending cost basis). -/
def hcfLE (a b : TaxLot) : Prop :=
  b.costBasis ≤ a.costBasis

instance : DecidableRel fifoLE :=
  fun a b => inferInstanceAs (Decidable (a.purchaseDate ≤ b.purchaseDate))

instance : DecidableRel lifoLE :=
  fun a b => inferInstanceAs (Decidable (b.purchaseDate ≤ a.purchaseDate))

instance : DecidableRel hcfLE :=
  fun a b => inferInstanceAs (Decidable (b.costBasis ≤ a.costBasis))

instance : IsTotal TaxLot fifoLE :=
  ⟨fun a b => Int.le_total a.purchaseDate b.purchaseDate⟩

instance : IsTrans TaxLot fifoLE :=
  ⟨fun _ _ _ hab hbc => le_trans hab hbc⟩

instance : IsTotal TaxLot lifoLE :=
  ⟨fun a b => Int.le_total b.purchaseDate a.purchaseDate⟩

instance : IsTrans TaxLot lifoLE :=
  ⟨fun _ _ _ hab hbc => le_trans hbc hab⟩

instance : IsTotal TaxLot hcfLE :=
  ⟨fun a b => le_total b.costBasis a.costBasis⟩

instance : IsTrans TaxLot hcfLE :=
  ⟨fun _ _ _ hab hbc => le_trans hbc hab⟩

/-- `finance.FIFO`: copy of the lots sorted by ascending purchase date. -/
def FIFO (lots : List TaxLot) : List TaxLot :=
  List.insertionSort fifoLE lots

/-- `finance.LIFO`: copy of the lots sorted by descending purchase date. -/
def LIFO (lots : List TaxLot) : List TaxLot :=
  List.insertionSort lifoLE lots

/-- `finance.HighestCostFirst`: copy of the lots sorted by descending
cost basis. -/
def HighestCostFirst (lots : List TaxLot) : List TaxLot :=
  List.insertionSort hcfLE lots

/-- `finance.RebalanceConfig`. -/
structure RebalanceConfig where
  taxRates : TaxRates
  lotSelector : List TaxLot → List TaxLot
  asOf : ℤ
  minTradeSize : ℚ

/-- `finance.Trade`: positive shares/amount = buy, negative = sell. -/
structure Trade where
  ticker : String
  shares : ℚ
  amount : ℚ
  taxCost : ℚ
deriving DecidableEq

/-- The loop body of `finance.calculateSellTaxCost`: walk the ordered
lots, consuming `min(remaining, lot.Shares)` from each until the
requested shares are exhausted, accumulating `TaxCost` of each partial
lot. -/
def sellTaxLoop (price : ℚ) (asOf : ℤ) (rates : TaxRates) :
    List TaxLot → ℚ → ℚ
  | [], _ => 0
  | lot :: rest, remaining =>
    if remaining ≤ 0 then 0
    else
      let sellFromLot := if lot.shares > remaining then remaining else lot.shares
      let partialLot : TaxLot :=
        { shares := sellFromLot, costBasis := lot.costBasis,
          purchaseDate := lot.purchaseDate }
      TaxCost partialLot price asOf rates +
        sellTaxLoop price asOf rates rest (remaining - sellFromLot)

/-- `finance.calculateSellTaxCost`: apply the configured lot selector and
walk the ordered copy. -/
def calculateSellTaxCost (h : Holding) (price sharesToSell : ℚ)
    (config : RebalanceConfig) : ℚ :=
  sellTaxLoop price config.asOf config.taxRates (config.lotSelector h.lots) sharesToSell

/-- One iteration of the loop of `finance.Rebalance`: possibly append a
buy or sell trade for holding `h` to the accumulated trades. -/
def rebalanceStep (total : ℚ) (prices : String → Option ℚ)
    (config : RebalanceConfig) (trades : List Trade) (h : Holding) : List Trade :=
  let price := (prices h.ticker).getD 0
  let currentValue := HoldingValue h price
  let targetValue := total * h.targetWeight
  let diff := targetValue - currentValue
  if |diff| < config.minTradeSize then trades
  else if diff > 0 then
    trades ++ [{ ticker := h.ticker, shares := diff / price, amount := diff,
                 taxCost := 0 }]
  else
    let sellAmount := -diff
    let sellShares := sellAmount / price
    trades ++ [{ ticker := h.ticker, shares := -sellShares, amount := -sellAmount,
                 taxCost := calculateSellTaxCost h price sellShares config }]

/-- `finance.Rebalance`: no trades on zero total value, otherwise one
pass over the holdings appending at most one trade each. -/
def Rebalance (holdings : List Holding) (prices : String → Option ℚ)
    (config : RebalanceConfig) : List Trade :=
  let total := PortfolioValue holdings prices
  if total = 0 then []
  else holdings.foldl (rebalanceStep total prices config) []

/-- `finance.TotalTaxCost`. -/
def TotalTaxCost (trades : List Trade) : ℚ :=
  (trades.map (fun t => t.taxCost)).sum

/-! ### Specification-side definitions (written from the spec's words) -/

/-- Spec-side per-holding trade decision, written from the claim: with
`diff = totalValue * targetWeight - currentValue`, skip when
`|diff| < MinTradeSize`; a buy of `diff/price` shares, amount `diff`,
zero tax cost when `diff > 0`; otherwise a sell of `-diff/price` shares
(recorded, per the data model's sign convention, as a negative share
count and amount) with the walked-lots tax cost. -/
def rebalanceTradeFor (total : ℚ) (prices : String → Option ℚ)
    (config : RebalanceConfig) (h : Holding) : Option Trade :=
  let price := (prices h.ticker).getD 0
  let currentValue := HoldingValue h price
  let diff := total * h.targetWeight - currentValue
  if |diff| < config.minTradeSize then none
  else if diff > 0 then
    some { ticker := h.ticker, shares := diff / price, amount := diff, taxCost := 0 }
  else
    let sellShares := -diff / price
    some { ticker := h.ticker, shares := -sellShares, amount := -(-diff),
           taxCost := calculateSellTaxCost h price sellShares config }

/-- Placeholder lot used as the default of positional list reads. -/
def dummyLot : TaxLot :=
  { shares := 0, costBasis := 0, purchaseDate := 0 }

/-- The tax rate the code applies to a lot: long-term rate when held for
more than 365 days as of `asOf`, else the short-term rate. -/
def lotRate (lot : TaxLot) (asOf : ℤ) (rates : TaxRates) : ℚ :=
  if IsLongTerm lot asOf then rates.longTerm else rates.shortTerm

/-- Spec-side: the shares consumed from the `i`-th of the ordered lots
when selling `sellShares` in order: `min(lot.shares, remaining)` where
`remaining` is the requested amount less the shares of the earlier lots
(clamped at zero once the request is exhausted). -/
def consumedFromLot (lots : List TaxLot) (sellShares : ℚ) (i : ℕ) : ℚ :=
  min ((lots.getD i dummyLot).shares)
    (max 0 (sellShares - ((lots.take i).map (fun l => l.shares)).sum))

/-- Spec-side closed form of the sell tax cost: the sum over the ordered
lots of `consumed * (price - costBasis) * rate`. -/
def specSellTax (price : ℚ) (asOf : ℤ) (rates : TaxRates)
    (lots : List TaxLot) (sellShares : ℚ) : ℚ :=
  ((List.range lots.length).map (fun i =>
    consumedFromLot lots sellShares i *
      ((price - (lots.getD i dummyLot).costBasis) *
        lotRate (lots.getD i dummyLot) asOf rates))).sum

/-! ### Concrete sample inputs -/

/-- A lot of 100 shares at cost basis 50, purchased two years (730 days)
before time 0. -/
def lotLongTerm : TaxLot :=
  { shares := 100, costBasis := 50, purchaseDate := -(730 * 24) }

/-- The same lot purchased six months (182 days) before time 0. -/
def lotShortTerm : TaxLot :=
  { shares := 100, costBasis := 50, purchaseDate := -(182 * 24) }

/-- Single-lot holding around `lotLongTerm`. -/
def holdingLongTerm : Holding :=
  { ticker := "VTI", targetWeight := 1, lots := [lotLongTerm] }

/-- Single-lot holding around `lotShortTerm`. -/
def holdingShortTerm : Holding :=
  { ticker := "VTI", targetWeight := 1, lots := [lotShortTerm] }

/-- FIFO rebalance configuration at valuation time 0 with the default
rates. -/
def fifoConfig : RebalanceConfig :=
  { taxRates := DefaultTaxRates, lotSelector := FIFO, asOf := 0, minTradeSize := 0 }

/-- `HighestCostFirst` rebalance configuration at valuation time 0 with
the default rates. -/
def hcfConfig : RebalanceConfig :=
  { taxRates := DefaultTaxRates, lotSelector := HighestCostFirst, asOf := 0,
    minTradeSize := 0 }

/-- An old lot with the lower cost basis (60), held long-term (two years)
as of time 0. -/
def lotOldLowBasis : TaxLot :=
  { shares := 10, costBasis := 60, purchaseDate := -(730 * 24) }

/-- A recent lot with the higher cost basis (80), held short-term (one
day) as of time 0. -/
def lotNewHighBasis : TaxLot :=
  { shares := 10, costBasis := 80, purchaseDate := -24 }

/-- A mixed-basis holding: the older lot has the lower basis and is
long-term, the newer lot has the higher basis and is short-term. -/
def holdingMixed : Holding :=
  { ticker := "VTI", targetWeight := 1, lots := [lotOldLowBasis, lotNewHighBasis] }

/-- Two long-term lots with distinct cost bases, the older one cheaper:
the low-basis lot, bought 730 days before time 0. -/
def lotWitnessLow : TaxLot :=
  { shares := 10, costBasis := 60, purchaseDate := -(730 * 24) }

/-- The high-basis lot, bought later but still long-term (10000 hours
before time 0). -/
def lotWitnessHigh : TaxLot :=
  { shares := 10, costBasis := 80, purchaseDate := -10000 }

/-- The underweight holding of the spec's worked rebalance example:
75 VTI shares at price 100 (value 7500 ≈ 42.86% of 17500), target 60%. -/
def vtiHolding : Holding :=
  { ticker := "VTI", targetWeight := 6/10,
    lots := [{ shares := 75, costBasis := 50, purchaseDate := -(730 * 24) }] }

/-- The overweight holding of the worked example: 100 BND shares at
price 100 (value 10000 ≈ 57.14%), target 40%. -/
def bndHolding : Holding :=
  { ticker := "BND", targetWeight := 4/10,
    lots := [{ shares := 100, costBasis := 100, purchaseDate := -(730 * 24) }] }

/-- Price map of the worked example: both symbols at 100. -/
def examplePrices : String → Option ℚ :=
  fun s => if s = "VTI" then some 100 else if s = "BND" then some 100 else none

end Finance

namespace Backtester

/-- `backtester.Asset`. -/
structure Asset where
  symbol : String
  weight : ℚ

/-- `backtester.PriceData`: a date sequence (integer timestamps) and,
per symbol, a price sequence.  The Go `map[string][]float64` becomes an
association list. -/
structure PriceData where
  dates : List ℤ
  prices : List (String × List ℚ)

/-- The indexed price read `p.PriceData.Prices[symbol][i]` (missing
symbols yield the nil slice, missing indices the zero value). -/
def priceAt (pd : PriceData) (s : String) (i : ℕ) : ℚ :=
  ((pd.prices.lookup s).getD []).getD i 0

/-- `backtester.RebalancerFunc`, as a function of the current date.  The
Go signature also receives the `Portfolio` pointer, whose recorded
fields do not change during the day loop; the canonical policies
(`MonthlyRebalancer`) read only the date. -/
def RebalancerFunc : Type :=
  ℤ → Option (List (String × ℚ))

/-- `backtester.Portfolio`. -/
structure Portfolio where
  assets : List Asset
  initCash : ℚ
  fees : ℚ
  priceData : PriceData
  holdings : List (String × ℚ)
  cash : List ℚ
  value : List ℚ
  weights : List (List (String × ℚ))
  dates : List ℤ
  rebalancer : RebalancerFunc

/-- `backtester.BacktestResult`. -/
structure BacktestResult where
  portfolio : Portfolio

/-- `backtester.NewPortfolio`. -/
def NewPortfolio (assets : List Asset) (initialCash fees : ℚ)
    (rebalancer : RebalancerFunc) : Portfolio :=
  { assets := assets
    initCash := initialCash
    fees := fees
    priceData := { dates := [], prices := [] }
    holdings := assets.map (fun a => (a.symbol, 0))
    cash := [initialCash]
    value := [initialCash]
    weights := [assets.map (fun a => (a.symbol, a.weight))]
    dates := []
    rebalancer := rebalancer }

/-- `Portfolio.SetPriceData`: stores the given price data unchanged; the
method performs no validation. -/
def setPriceData (p : Portfolio) (pd : PriceData) : Portfolio :=
  { p with priceData := pd }

/-- The well-formedness invariant the spec states for a price series:
every symbol's price sequence length agrees with the date sequence
length. -/
def PriceData.wellFormed (pd : PriceData) : Prop :=
  ∀ pr ∈ pd.prices, pr.2.length = pd.dates.length

instance (pd : PriceData) : Decidable pd.wellFormed :=
  inferInstanceAs (Decidable (∀ _ ∈ _, _))

/-- The running simulation state of `Portfolio.Run`: current cash and
current holdings (`currCash`, `currHoldings`).  The Go holdings map
becomes an association list; a write to a fresh key appends it. -/
structure SimState where
  cash : ℚ
  holdings : List (String × ℚ)

/-- Read of `currHoldings[symbol]` (zero on a missing key). -/
def getQty (hs : List (String × ℚ)) (s : String) : ℚ :=
  (hs.lookup s).getD 0

/-- Write of `currHoldings[symbol] = q`: update the entry in place, or
append it when the key is new. -/
def setQty (hs : List (String × ℚ)) (s : String) (q : ℚ) : List (String × ℚ) :=
  if (hs.lookup s).isSome then
    hs.map (fun pr => if pr.1 = s then (s, q) else pr)
  else hs ++ [(s, q)]

/-- The rebalance block of `Portfolio.Run` for day index `i`: when the
policy returned target weights, value the portfolio, derive each
symbol's target quantity, and execute the nonzero quantity differences
against cash with a proportional fee. -/
def execRebalance (fees : ℚ) (pd : PriceData) (i : ℕ) (st : SimState) :
    Option (List (String × ℚ)) → SimState
  | none => st
  | some rebWeights =>
    let portfolioValue :=
      st.holdings.foldl (fun acc sq => acc + sq.2 * priceAt pd sq.1 i) st.cash
    let targetPositions :=
      rebWeights.map (fun sw => (sw.1, portfolioValue * sw.2 / priceAt pd sw.1 i))
    targetPositions.foldl (fun st2 tp =>
      let diffQty := tp.2 - getQty st2.holdings tp.1
      if diffQty ≠ 0 then
        let price := priceAt pd tp.1 i
        let tradeCost := price * diffQty
        let feeCost := fees * |tradeCost|
        { cash := st2.cash - (tradeCost + feeCost),
          holdings := setQty st2.holdings tp.1 tp.2 }
      else st2) st

/-- The valuation block of `Portfolio.Run` for day index `i`: one pass
over the holdings accumulating the total value and recording each
symbol's weight against the running total, exactly as the source loop
does. -/
def recordDay (pd : PriceData) (i : ℕ) (st : SimState) :
    ℚ × List (String × ℚ) :=
  st.holdings.foldl (fun acc sq =>
    let assetValue := sq.2 * priceAt pd sq.1 i
    let totalValue := acc.1 + assetValue
    (totalValue, acc.2 ++ [(sq.1, assetValue / totalValue)])) (st.cash, [])

/-- The day loop of `Portfolio.Run` over the indexed dates, returning
the recorded per-day values, cash balances and weight snapshots. -/
def runLoop (fees : ℚ) (pd : PriceData) (reb : RebalancerFunc) :
    List (ℕ × ℤ) → SimState → List ℚ × List ℚ × List (List (String × ℚ))
  | [], _ => ([], [], [])
  | (i, date) :: rest, st =>
    let st2 := execRebalance fees pd i st (reb date)
    let day := recordDay pd i st2
    let tail := runLoop fees pd reb rest st2
    (day.1 :: tail.1, st2.cash :: tail.2.1, day.2 :: tail.2.2)

/-- `Portfolio.Run`: fails on an empty price series, otherwise runs the
day loop from zero holdings and the initial cash, prepending the initial
entries exactly as the source does. -/
def Portfolio.run (p : Portfolio) : Except String BacktestResult :=
  if p.priceData.dates = [] then Except.error "price data is empty"
  else
    let st0 : SimState :=
      { cash := p.initCash, holdings := p.assets.map (fun a => (a.symbol, 0)) }
    let res := runLoop p.fees p.priceData p.rebalancer p.priceData.dates.enum st0
    Except.ok
      { portfolio :=
        { p with
          value := p.initCash :: res.1
          cash := p.initCash :: res.2.1
          weights := (p.weights.getD 0 []) :: res.2.2
          dates := p.priceData.dates } }

/-- Spec-side: the simulation state after the first `k` days have been
processed (each day applies the policy's trades for that day; the
initial state, `k = 0`, is the full cash position with zero holdings).
Defined by folding the rebalance execution over the first `k` indexed
days. -/
def afterDays (fees : ℚ) (pd : PriceData) (reb : RebalancerFunc) :
    List (ℕ × ℤ) → SimState → ℕ → SimState
  | _, st, 0 => st
  | [], st, _ + 1 => st
  | pr :: rest, st, k + 1 =>
    afterDays fees pd reb rest (execRebalance fees pd pr.1 st (reb pr.2)) k

/-- Spec-side: the state of portfolio `p` after day `k`'s processing,
including any trade executed that day. -/
def stateAfter (p : Portfolio) (k : ℕ) : SimState :=
  afterDays p.fees p.priceData p.rebalancer p.priceData.dates.enum
    { cash := p.initCash, holdings := p.assets.map (fun a => (a.symbol, 0)) } k

/-- Spec-side (modelled from the spec, §8 round-trip property): the
buy-and-hold terminal value implied by the initial weights and the price
ratios over the period — each weight share of the initial cash grown by
its symbol's last-to-first price ratio. -/
def buyAndHoldTerminal (p : Portfolio) : ℚ :=
  p.initCash *
    (p.assets.map (fun a =>
      a.weight *
        (priceAt p.priceData a.symbol (p.priceData.dates.length - 1) /
          priceAt p.priceData a.symbol 0))).sum

/-! ### The statistics calculator, exact model

`math.Sqrt` and `math.Pow` are opaque real functions; the exact model
abstracts them as parameters `sq : ℚ → ℚ` and `pw : ℚ → ℚ → ℚ`, so that
every arithmetic identity proved below holds for the actual square root
and power functions. -/

/-- `backtester.calcStdDev`: zero on empty data, else the square root of
the population variance (sum of squared deviations divided by the
length, not length minus one). -/
def calcStdDev (sq : ℚ → ℚ) (data : List ℚ) : ℚ :=
  if data.length = 0 then 0
  else
    let mean := data.sum / (data.length : ℚ)
    let variance := (data.map (fun v => (v - mean) * (v - mean))).sum / (data.length : ℚ)
    sq variance

/-- `backtester.calcMaxDrawdown`: zero on fewer than two points, else a
single pass tracking the running peak and the maximum of
`(peak - value) / peak`. -/
def calcMaxDrawdown (values : List ℚ) : ℚ :=
  if values.length < 2 then 0
  else
    (values.foldl (fun acc value =>
      let peak := if value > acc.2 then value else acc.2
      let drawdown := (peak - value) / peak
      (if drawdown > acc.1 then drawdown else acc.1, peak)) (0, values.headD 0)).1

/-- `BacktestResult.Stats` over the recorded value and date series: the
empty result set on fewer than two points, else the six keyed
statistics, computed exactly as the source does. -/
def Stats (sq : ℚ → ℚ) (pw : ℚ → ℚ → ℚ) (value : List ℚ) (dates : List ℤ) :
    List (String × ℚ) :=
  if value.length < 2 then []
  else
    let initialValue := value.getD 0 0
    let finalValue := value.getD (value.length - 1) 0
    let returns := finalValue / initialValue - 1
    let years := (dates.length : ℚ) / 252
    let annReturn := pw (1 + returns) (1 / years) - 1
    let dailyReturns :=
      (List.range (value.length - 1)).map (fun i =>
        value.getD (i + 1) 0 / value.getD i 0 - 1)
    let volatility := calcStdDev sq dailyReturns * sq 252
    let maxDrawdown := calcMaxDrawdown value
    let sharpe := annReturn / volatility
    [("total_return", returns * 100),
     ("annualized_return", annReturn * 100),
     ("volatility", volatility * 100),
     ("sharpe_ratio", sharpe),
     ("max_drawdown", maxDrawdown * 100),
     ("final_value", finalValue)]

/-! ### Specification-side statistics definitions -/

/-- Spec-side: the daily return series, `value[i]/value[i-1] - 1` for
each consecutive pair. -/
def specDailyReturns (value : List ℚ) : List ℚ :=
  List.zipWith (fun a b => a / b - 1) value.tail value

/-- Spec-side: the population mean. -/
def popMean (xs : List ℚ) : ℚ :=
  xs.sum / (xs.length : ℚ)

/-- Spec-side: the population (not sample) standard deviation — the
square root of the mean of the squared deviations. -/
def popStdDev (sq : ℚ → ℚ) (xs : List ℚ) : ℚ :=
  sq (((xs.map (fun x => (x - popMean xs) ^ 2)).sum) / (xs.length : ℚ))

/-- Spec-side: the running peak — the maximum value seen up to and
including index `i`. -/
def runningPeak (values : List ℚ) (i : ℕ) : ℚ :=
  (values.take (i + 1)).foldl max (values.headD 0)

/-- Spec-side: the maximum over all indices of
`(runningPeak - value[i]) / runningPeak`. -/
def specMaxDrawdown (values : List ℚ) : ℚ :=
  ((List.range values.length).map (fun i =>
    (runningPeak values i - values.getD i 0) / runningPeak values i)).foldl max 0

/-! ### The statistics calculator, IEEE finiteness model

`E := Option ℚ` carries either a finite value or `none`, standing for a
non-finite IEEE result (`±Inf` or `NaN`).  Division by zero yields a
non-finite result; every other arithmetic operation on finite operands
stays finite (overflow is out of scope), and any operation touching a
non-finite operand is conservatively non-finite.  Ordered comparisons
against a non-finite operand are modelled as false, matching IEEE
comparisons with `NaN` (the only non-finite values the proved claims
exercise).  `math.Sqrt`/`math.Pow` become parameters on `E`; the facts
needed of them (`sqrt 0 = 0`, `pow(1, y) = 1`, square roots of positive
finite values are finite) are IEEE identities taken as hypotheses. -/

/-- Finite-or-nonfinite float model. -/
def E : Type :=
  Option ℚ

/-- Embed a finite value. -/
def fin (q : ℚ) : E :=
  some q

instance : DecidableEq E :=
  inferInstanceAs (DecidableEq (Option ℚ))

/-- Addition in the finiteness model. -/
def eadd : E → E → E
  | some a, some b => some (a + b)
  | _, _ => none

/-- Subtraction in the finiteness model. -/
def esub : E → E → E
  | some a, some b => some (a - b)
  | _, _ => none

/-- Multiplication in the finiteness model. -/
def emul : E → E → E
  | some a, some b => some (a * b)
  | _, _ => none

/-- Division in the finiteness model: a zero denominator (the unguarded
case the code contains) produces a non-finite result. -/
def ediv : E → E → E
  | some a, some b => if b = 0 then none else some (a / b)
  | _, _ => none

/-- Ordered comparison in the finiteness model (false when either side
is non-finite, as for IEEE `NaN`). -/
def egt : E → E → Bool
  | some a, some b => a > b
  | _, _ => false

/-- Sum of a list in the finiteness model. -/
def esum (xs : List E) : E :=
  xs.foldl eadd (fin 0)

/-- `backtester.calcStdDev` in the finiteness model. -/
def calcStdDevE (sqE : E → E) (data : List E) : E :=
  if data.length = 0 then fin 0
  else
    let mean := ediv (esum data) (fin (data.length : ℚ))
    let variance :=
      ediv (esum (data.map (fun v => emul (esub v mean) (esub v mean))))
        (fin (data.length : ℚ))
    sqE variance

/-- `backtester.calcMaxDrawdown` in the finiteness model (its input is
the recorded series, whose entries are finite). -/
def calcMaxDrawdownE (values : List ℚ) : E :=
  if values.length < 2 then fin 0
  else
    (values.foldl (fun acc value =>
      let peak := if value > acc.2 then value else acc.2
      let drawdown := ediv (fin (peak - value)) (fin peak)
      (if egt drawdown acc.1 then drawdown else acc.1, peak)) (fin 0, values.headD 0)).1

/-- `BacktestResult.Stats` in the finiteness model, over a recorded
(finite) value series. -/
def StatsE (sqE : E → E) (pwE : E → E → E) (value : List ℚ) (dates : List ℤ) :
    List (String × E) :=
  if value.length < 2 then []
  else
    let initialValue := value.getD 0 0
    let finalValue := value.getD (value.length - 1) 0
    let returns := esub (ediv (fin finalValue) (fin initialValue)) (fin 1)
    let years := ediv (fin (dates.length : ℚ)) (fin 252)
    let annReturn := esub (pwE (eadd (fin 1) returns) (ediv (fin 1) years)) (fin 1)
    let dailyReturns :=
      (List.range (value.length - 1)).map (fun i =>
        esub (ediv (fin (value.getD (i + 1) 0)) (fin (value.getD i 0))) (fin 1))
    let volatility := emul (calcStdDevE sqE dailyReturns) (sqE (fin 252))
    let maxDrawdown := calcMaxDrawdownE value
    let sharpe := ediv annReturn volatility
    [("total_return", emul returns (fin 100)),
     ("annualized_return", emul annReturn (fin 100)),
     ("volatility", emul volatility (fin 100)),
     ("sharpe_ratio", sharpe),
     ("max_drawdown", emul maxDrawdown (fin 100)),
     ("final_value", fin finalValue)]

/-! ### Concrete sample inputs for the backtester -/

/-- A price series whose date sequence (length 2) disagrees with the
symbol price sequence length (1). -/
def mismatchedPriceData : PriceData :=
  { dates := [0, 1], prices := [("A", [100])] }

/-- Concrete square root stand-in for the finiteness model, used to
instantiate the abstract `sqE` at the points the theorems constrain
(`sqrt 0 = 0`, non-finite inputs stay non-finite, `sqrt 252` finite). -/
def sqSample : E → E :=
  fun x => x

/-- Concrete power stand-in for the finiteness model: `pow(1, y) = 1`,
non-finite elsewhere (enough for the constant-series computations). -/
def pwSample : E → E → E :=
  fun a _ => if a = fin 1 then fin 1 else none

/-- Concrete square-root stand-in for the exact model (any function of
the right type instantiates the abstract statistics theorems). -/
def sqId : ℚ → ℚ :=
  fun q => q

/-- Concrete power stand-in for the exact model. -/
def pwFst : ℚ → ℚ → ℚ :=
  fun a _ => a

/-- The base portfolio of the concrete backtester examples, before any
price data is attached. -/
def basePortfolio : Portfolio :=
  NewPortfolio [{ symbol := "A", weight := 1 }] 1000 0 (fun _ => none)

/-- The base portfolio with a never-firing policy over a two-day price
series in which the price doubles. -/
def neverRebalancePortfolio : Portfolio :=
  setPriceData basePortfolio { dates := [0, 1], prices := [("A", [100, 200])] }

end Backtester

/-! ## Theorems -/

namespace Finance

/-- One `Rebalance` loop iteration appends the per-holding trade
decision (if any) to the accumulated trades. -/
lemma rebalanceStep_eq_toList (total : ℚ) (prices : String → Option ℚ)
    (config : RebalanceConfig) (acc : List Trade) (h : Holding) :
    rebalanceStep total prices config acc h =
      acc ++ (rebalanceTradeFor total prices config h).toList := by
  simp only [rebalanceStep, rebalanceTradeFor]
  split
  · simp
  · split <;> simp

/-- The `Rebalance` loop is the `filterMap` of the per-holding trade
decision. -/
lemma rebalance_foldl_eq (total : ℚ) (prices : String → Option ℚ)
    (config : RebalanceConfig) :
    ∀ (hs : List Holding) (acc : List Trade),
      hs.foldl (rebalanceStep total prices config) acc =
        acc ++ hs.filterMap (rebalanceTradeFor total prices config) := by
  intro hs
  induction hs with
  | nil => simp
  | cons h t ih =>
    intro acc
    rw [List.foldl_cons, rebalanceStep_eq_toList, ih, List.filterMap_cons]
    cases rebalanceTradeFor total prices config h <;> simp

/-- C1: on a nonzero total portfolio value, `Rebalance` emits, per
holding in order, exactly the claimed decision: with
`diff = totalValue * targetWeight - currentValue`, no trade when
`|diff| < MinTradeSize`; a buy of `diff/price` shares with amount `diff`
and zero tax cost when `diff > 0`; otherwise a sell of `-diff/price`
shares with amount `-diff` (both recorded with the sell sign) and the
walked-lots tax cost. -/
theorem claim_C1_rebalance_per_holding (holdings : List Holding)
    (prices : String → Option ℚ) (config : RebalanceConfig)
    (hne : PortfolioValue holdings prices ≠ 0) :
    Rebalance holdings prices config =
      holdings.filterMap
        (rebalanceTradeFor (PortfolioValue holdings prices) prices config) := by
  unfold Rebalance
  rw [if_neg hne, rebalance_foldl_eq]
  simp

/-- C1 witness: the spec's worked example — total value 17500, VTI
underweight by 3000 (buy of 30 shares), BND overweight by 3000 (sell of
30 shares). -/
theorem claim_C1_witness :
    Rebalance [vtiHolding, bndHolding] examplePrices fifoConfig =
      [vtiHolding, bndHolding].filterMap
        (rebalanceTradeFor (PortfolioValue [vtiHolding, bndHolding] examplePrices)
          examplePrices fifoConfig) :=
  claim_C1_rebalance_per_holding [vtiHolding, bndHolding] examplePrices fifoConfig
    (by norm_num [PortfolioValue, HoldingValue, TaxLot.value, vtiHolding, bndHolding,
      examplePrices])

/-- C6: each lot selector returns an ordered copy of the caller's lots —
a permutation of the input (same lots, merely reordered; the embedding
is pure, matching the source's copy-before-sort), sorted non-decreasing
in purchase date for `FIFO`, non-increasing in purchase date for `LIFO`,
and non-increasing in cost basis for `HighestCostFirst`. -/
theorem claim_C6_lot_selectors (lots : List TaxLot) :
    ((FIFO lots).Perm lots ∧
      List.Sorted (fun a b : TaxLot => a.purchaseDate ≤ b.purchaseDate) (FIFO lots)) ∧
    ((LIFO lots).Perm lots ∧
      List.Sorted (fun a b : TaxLot => b.purchaseDate ≤ a.purchaseDate) (LIFO lots)) ∧
    ((HighestCostFirst lots).Perm lots ∧
      List.Sorted (fun a b : TaxLot => b.costBasis ≤ a.costBasis)
        (HighestCostFirst lots)) :=
  ⟨⟨List.perm_insertionSort fifoLE lots, List.sorted_insertionSort fifoLE lots⟩,
   ⟨List.perm_insertionSort lifoLE lots, List.sorted_insertionSort lifoLE lots⟩,
   ⟨List.perm_insertionSort hcfLE lots, List.sorted_insertionSort hcfLE lots⟩⟩

/-- C8: on a zero total portfolio value, `Rebalance` returns no trades
(the step is skipped, not an error; and, the embedding being a pure
function of its arguments, the caller's holdings are untouched). -/
theorem claim_C8_zero_total_value (holdings : List Holding)
    (prices : String → Option ℚ) (config : RebalanceConfig)
    (hzero : PortfolioValue holdings prices = 0) :
    Rebalance holdings prices config = [] := by
  unfold Rebalance
  rw [if_pos hzero]

/-- C8 witness: a holding whose ticker has no quoted price gives a zero
total value, and rebalancing it yields no trades. -/
theorem claim_C8_witness :
    Rebalance [holdingLongTerm] (fun _ => none) fifoConfig = [] :=
  claim_C8_zero_total_value [holdingLongTerm] (fun _ => none) fifoConfig
    (by simp [PortfolioValue])

/-- The sell-tax walk consumes nothing once the request is exhausted. -/
lemma sellTaxLoop_nonpos (price : ℚ) (asOf : ℤ) (rates : TaxRates) :
    ∀ (lots : List TaxLot) (S : ℚ), S ≤ 0 → sellTaxLoop price asOf rates lots S = 0 := by
  intro lots S hS
  cases lots with
  | nil => rfl
  | cons lot rest => simp [sellTaxLoop, hS]

/-- Unfolding of the closed-form sell tax at a cons cell. -/
lemma specSellTax_cons (price : ℚ) (asOf : ℤ) (rates : TaxRates)
    (lot : TaxLot) (rest : List TaxLot) (S : ℚ) :
    specSellTax price asOf rates (lot :: rest) S =
      min lot.shares (max 0 S) * ((price - lot.costBasis) * lotRate lot asOf rates) +
        specSellTax price asOf rates rest (S - lot.shares) := by
  unfold specSellTax
  rw [List.length_cons, List.range_succ_eq_map, List.map_cons, List.sum_cons,
    List.map_map]
  congr 1
  · simp [consumedFromLot]
  · apply congrArg List.sum
    apply List.map_congr_left
    intro i _
    simp only [Function.comp_apply, consumedFromLot, List.getD_cons_succ,
      List.take_succ_cons, List.map_cons, List.sum_cons]
    congr 2
    ring

/-- The closed-form sell tax is zero once the request is exhausted,
provided the lots have nonnegative share counts. -/
lemma specSellTax_nonpos (price : ℚ) (asOf : ℤ) (rates : TaxRates) :
    ∀ (lots : List TaxLot) (S : ℚ), (∀ l ∈ lots, 0 ≤ l.shares) → S ≤ 0 →
      specSellTax price asOf rates lots S = 0 := by
  intro lots
  induction lots with
  | nil => intro S _ _; simp [specSellTax]
  | cons lot rest ih =>
    intro S hmem hS
    rw [specSellTax_cons]
    have hlot : 0 ≤ lot.shares := hmem lot (List.mem_cons_self lot rest)
    have h1 : max 0 S = 0 := max_eq_left hS
    have h2 : min lot.shares (0 : ℚ) = 0 := min_eq_right hlot
    rw [h1, h2, ih (S - lot.shares) (fun l hl => hmem l (List.mem_cons_of_mem lot hl))
      (by linarith)]
    ring

/-- The source's sell-tax walk computes the closed-form sum of
`consumed * (price - costBasis) * rate` over the ordered lots. -/
lemma sellTaxLoop_eq_spec (price : ℚ) (asOf : ℤ) (rates : TaxRates) :
    ∀ (lots : List TaxLot) (S : ℚ), (∀ l ∈ lots, 0 ≤ l.shares) →
      sellTaxLoop price asOf rates lots S = specSellTax price asOf rates lots S := by
  intro lots
  induction lots with
  | nil => intro S _; simp [sellTaxLoop, specSellTax]
  | cons lot rest ih =>
    intro S hmem
    have hlot : 0 ≤ lot.shares := hmem lot (List.mem_cons_self lot rest)
    have hrest : ∀ l ∈ rest, 0 ≤ l.shares :=
      fun l hl => hmem l (List.mem_cons_of_mem lot hl)
    rw [specSellTax_cons]
    by_cases hS : S ≤ 0
    · rw [sellTaxLoop_nonpos price asOf rates _ S hS,
        specSellTax_nonpos price asOf rates rest (S - lot.shares) hrest (by linarith),
        max_eq_left hS, min_eq_right hlot]
      ring
    · push_neg at hS
      have hmax : max 0 S = S := max_eq_right hS.le
      have hsell : (if lot.shares > S then S else lot.shares) = min lot.shares S := by
        rcases le_or_lt lot.shares S with hle | hlt
        · rw [if_neg (not_lt.mpr hle), min_eq_left hle]
        · rw [if_pos hlt, min_eq_right hlt.le]
      have htax : ∀ c : ℚ,
          TaxCost ⟨c, lot.costBasis, lot.purchaseDate⟩ price asOf rates =
            c * ((price - lot.costBasis) * lotRate lot asOf rates) := by
        intro c
        simp only [TaxCost, UnrealizedGain, TaxLot.value, TaxLot.totalCost, lotRate,
          IsLongTerm]
        split <;> ring
      simp only [sellTaxLoop, if_neg (not_le.mpr hS), hsell, htax, hmax]
      rcases le_or_lt lot.shares S with hle | hlt
      · rw [min_eq_left hle, ih (S - lot.shares) hrest]
      · rw [min_eq_right hlt.le,
          sellTaxLoop_nonpos price asOf rates rest (S - S) (by linarith),
          specSellTax_nonpos price asOf rates rest (S - lot.shares) hrest (by linarith)]

/-- C2: the tax cost of a sell equals the sum, over the selector-ordered
copy of the lots, of `consumed * (price - costBasis) * rate` with
`consumed = min(remaining, lot.shares)` until the request is exhausted
and the rate chosen by the 365-day holding test; in particular the
100-share lot with basis 50 at price 100 yields 750 when held two years
and 1750 when held six months, and a sale below basis yields a negative
tax cost. -/
theorem claim_C2_sell_tax_cost :
    (∀ (config : RebalanceConfig) (h : Holding) (price S : ℚ),
      (∀ l ∈ config.lotSelector h.lots, 0 ≤ l.shares) →
        calculateSellTaxCost h price S config =
          specSellTax price config.asOf config.taxRates (config.lotSelector h.lots) S) ∧
    calculateSellTaxCost holdingLongTerm 100 100 fifoConfig = 750 ∧
    calculateSellTaxCost holdingShortTerm 100 100 fifoConfig = 1750 ∧
    calculateSellTaxCost holdingLongTerm 30 100 fifoConfig < 0 := by
  refine ⟨fun config h price S hmem =>
    sellTaxLoop_eq_spec price config.asOf config.taxRates _ S hmem, ?_, ?_, ?_⟩ <;>
    norm_num [calculateSellTaxCost, fifoConfig, holdingLongTerm, holdingShortTerm,
      lotLongTerm, lotShortTerm, FIFO, fifoLE, sellTaxLoop, TaxCost, UnrealizedGain,
      TaxLot.value, TaxLot.totalCost, IsLongTerm, DefaultTaxRates]

/-- C2 witness: the general identity applied at the two-year lot sold at
price 100 under the FIFO selector. -/
theorem claim_C2_witness :
    calculateSellTaxCost holdingLongTerm 100 100 fifoConfig =
      specSellTax 100 fifoConfig.asOf fifoConfig.taxRates
        (fifoConfig.lotSelector holdingLongTerm.lots) 100 :=
  claim_C2_sell_tax_cost.1 fifoConfig holdingLongTerm 100 100
    (by norm_num [fifoConfig, holdingLongTerm, lotLongTerm, FIFO, fifoLE])

/-- C7 counterexample: a mixed-basis holding (bases 60 and 80) selling
one share at price 100 with the default rates.  The sale realizes a net
gain under either selector, yet `HighestCostFirst` picks the high-basis
*short-term* lot (tax `20 * 0.35 = 7`) while `FIFO` picks the low-basis
*long-term* lot (tax `40 * 0.15 = 6`), so the `HighestCostFirst` tax
cost is strictly greater, not strictly less. -/
theorem claim_C7_counterexample :
    lotOldLowBasis.costBasis ≠ lotNewHighBasis.costBasis ∧
    0 < calculateSellTaxCost holdingMixed 100 1 fifoConfig ∧
    0 < calculateSellTaxCost holdingMixed 100 1 hcfConfig ∧
    calculateSellTaxCost holdingMixed 100 1 fifoConfig = 6 ∧
    calculateSellTaxCost holdingMixed 100 1 hcfConfig = 7 ∧
    ¬ calculateSellTaxCost holdingMixed 100 1 hcfConfig <
        calculateSellTaxCost holdingMixed 100 1 fifoConfig := by
  norm_num [calculateSellTaxCost, fifoConfig, hcfConfig, holdingMixed,
    lotOldLowBasis, lotNewHighBasis, FIFO, HighestCostFirst, fifoLE, hcfLE,
    List.insertionSort, List.orderedInsert, sellTaxLoop, TaxCost, UnrealizedGain,
    TaxLot.value, TaxLot.totalCost, IsLongTerm, DefaultTaxRates]

/-- C7 amended: on a two-lot holding of distinct cost bases whose older
lot has the lower basis, with both lots in the same (long-term) rate
class, a positive long-term rate, a sale of at most either lot's shares
realizing a net gain, the `HighestCostFirst` tax cost is strictly less
than the `FIFO` tax cost. -/
theorem claim_C7_amended (a b : TaxLot) (t : String) (w : ℚ) (price S : ℚ)
    (rates : TaxRates) (asOf : ℤ) (m : ℚ)
    (hdate : a.purchaseDate < b.purchaseDate)
    (hbasis : a.costBasis < b.costBasis)
    (haLT : IsLongTerm a asOf) (hbLT : IsLongTerm b asOf)
    (hS : 0 < S) (hSa : S ≤ a.shares) (hSb : S ≤ b.shares)
    (hgain : a.costBasis < price) (hbgain : b.costBasis < price)
    (hrate : 0 < rates.longTerm) :
    calculateSellTaxCost ⟨t, w, [a, b]⟩ price S
        { taxRates := rates, lotSelector := HighestCostFirst, asOf := asOf,
          minTradeSize := m } <
      calculateSellTaxCost ⟨t, w, [a, b]⟩ price S
        { taxRates := rates, lotSelector := FIFO, asOf := asOf,
          minTradeSize := m } := by
  have hfifo : FIFO [a, b] = [a, b] := by
    simp [FIFO, List.insertionSort, List.orderedInsert, fifoLE, hdate.le]
  have hhcf : HighestCostFirst [a, b] = [b, a] := by
    simp [HighestCostFirst, List.insertionSort, List.orderedInsert, hcfLE,
      not_le.mpr hbasis]
  have hone : ∀ (x y : TaxLot), S ≤ x.shares →
      sellTaxLoop price asOf rates [x, y] S =
        TaxCost ⟨S, x.costBasis, x.purchaseDate⟩ price asOf rates := by
    intro x y hx
    have hsell : (if x.shares > S then S else x.shares) = S := by
      rcases lt_or_eq_of_le hx with hlt | heq
      · rw [if_pos hlt]
      · rw [← heq, if_neg (lt_irrefl _)]
    simp only [sellTaxLoop, if_neg (not_le.mpr hS), hsell]
    simp
  simp only [calculateSellTaxCost, hfifo, hhcf]
  rw [hone a b hSa, hone b a hSb]
  have hta : IsLongTerm (⟨S, a.costBasis, a.purchaseDate⟩ : TaxLot) asOf := haLT
  have htb : IsLongTerm (⟨S, b.costBasis, b.purchaseDate⟩ : TaxLot) asOf := hbLT
  simp only [TaxCost, UnrealizedGain, TaxLot.value, TaxLot.totalCost, if_pos hta,
    if_pos htb]
  have hmul : 0 < S * rates.longTerm := mul_pos hS hrate
  nlinarith [mul_pos hmul (sub_pos.mpr hbasis)]

/-- C7 amended witness: two long-term lots with bases 60 (older) and 80
(newer), one share sold at price 100 under the default rates. -/
theorem claim_C7_amended_witness :
    calculateSellTaxCost ⟨"VTI", 1, [lotWitnessLow, lotWitnessHigh]⟩ 100 1
        { taxRates := DefaultTaxRates, lotSelector := HighestCostFirst, asOf := 0,
          minTradeSize := 0 } <
      calculateSellTaxCost ⟨"VTI", 1, [lotWitnessLow, lotWitnessHigh]⟩ 100 1
        { taxRates := DefaultTaxRates, lotSelector := FIFO, asOf := 0,
          minTradeSize := 0 } :=
  claim_C7_amended lotWitnessLow lotWitnessHigh "VTI" 1 100 1 DefaultTaxRates 0 0
    (by norm_num [lotWitnessLow, lotWitnessHigh])
    (by norm_num [lotWitnessLow, lotWitnessHigh])
    (by norm_num [IsLongTerm, lotWitnessLow])
    (by norm_num [IsLongTerm, lotWitnessHigh])
    (by norm_num)
    (by norm_num [lotWitnessLow])
    (by norm_num [lotWitnessHigh])
    (by norm_num [lotWitnessLow])
    (by norm_num [lotWitnessHigh])
    (by norm_num [DefaultTaxRates])

end Finance

namespace Backtester

/-- The day loop records exactly one value, cash balance and weight
snapshot per day. -/
lemma runLoop_length (fees : ℚ) (pd : PriceData) (reb : RebalancerFunc) :
    ∀ (pairs : List (ℕ × ℤ)) (st : SimState),
      (runLoop fees pd reb pairs st).1.length = pairs.length ∧
      (runLoop fees pd reb pairs st).2.1.length = pairs.length ∧
      (runLoop fees pd reb pairs st).2.2.length = pairs.length := by
  intro pairs
  induction pairs with
  | nil => intro st; simp [runLoop]
  | cons pr rest ih =>
    intro st
    obtain ⟨i, d⟩ := pr
    simp [runLoop, ih]

/-- Position `j` of the day loop's records is the valuation (and cash)
of the state reached after `j + 1` days have been processed. -/
lemma runLoop_getD (fees : ℚ) (pd : PriceData) (reb : RebalancerFunc) :
    ∀ (pairs : List (ℕ × ℤ)) (st : SimState) (j : ℕ), j < pairs.length →
      (runLoop fees pd reb pairs st).1.getD j 0 =
        (recordDay pd (pairs.getD j (0, 0)).1
          (afterDays fees pd reb pairs st (j + 1))).1 ∧
      (runLoop fees pd reb pairs st).2.1.getD j 0 =
        (afterDays fees pd reb pairs st (j + 1)).cash ∧
      (runLoop fees pd reb pairs st).2.2.getD j [] =
        (recordDay pd (pairs.getD j (0, 0)).1
          (afterDays fees pd reb pairs st (j + 1))).2 := by
  intro pairs
  induction pairs with
  | nil => intro st j hj; simp at hj
  | cons pr rest ih =>
    intro st j hj
    obtain ⟨i, d⟩ := pr
    cases j with
    | zero =>
      simp [runLoop, afterDays]
    | succ j =>
      have hj2 : j < rest.length := by simpa using hj
      simpa [runLoop, afterDays] using
        ih (execRebalance fees pd i st (reb d)) j hj2

/-- Positional read of an enumerated list. -/
lemma enumFrom_getD :
    ∀ (ds : List ℤ) (k j : ℕ), j < ds.length →
      (List.enumFrom k ds).getD j (0, 0) = (k + j, ds.getD j 0) := by
  intro ds
  induction ds with
  | nil => intro k j hj; simp at hj
  | cons d rest ih =>
    intro k j hj
    cases j with
    | zero => simp [List.enumFrom]
    | succ j =>
      have hj2 : j < rest.length := by simpa using hj
      have := ih (k + 1) j hj2
      simp only [List.enumFrom, List.getD_cons_succ, this]
      congr 1
      omega

/-- C3: on a nonempty price series, `Run()` succeeds and the recorded
series have one entry per day plus the initial one; entry `0` of the
value and cash series is the initial cash (the state before any day is
processed), and for every day `k` the entries at position `k + 1` are
the cash, total value and weight snapshot of the simulation state after
day `k`'s processing — the state reached after the first `k + 1` days'
rebalance trades, valued at day `k`'s prices. -/
theorem claim_C3_run_records (p : Portfolio) (hne : p.priceData.dates ≠ []) :
    ∃ r : BacktestResult, p.run = Except.ok r ∧
      r.portfolio.value.length = p.priceData.dates.length + 1 ∧
      r.portfolio.cash.length = p.priceData.dates.length + 1 ∧
      r.portfolio.weights.length = p.priceData.dates.length + 1 ∧
      r.portfolio.value.getD 0 0 = p.initCash ∧
      r.portfolio.cash.getD 0 0 = p.initCash ∧
      ∀ k, k < p.priceData.dates.length →
        r.portfolio.cash.getD (k + 1) 0 = (stateAfter p (k + 1)).cash ∧
        r.portfolio.value.getD (k + 1) 0 =
          (recordDay p.priceData k (stateAfter p (k + 1))).1 ∧
        r.portfolio.weights.getD (k + 1) [] =
          (recordDay p.priceData k (stateAfter p (k + 1))).2 := by
  simp only [Portfolio.run, if_neg hne]
  refine ⟨_, rfl, ?_⟩
  have hlen :=
    runLoop_length p.fees p.priceData p.rebalancer p.priceData.dates.enum
      { cash := p.initCash, holdings := p.assets.map (fun a => (a.symbol, 0)) }
  have helen : p.priceData.dates.enum.length = p.priceData.dates.length :=
    List.enum_length
  refine ⟨by simp [hlen.1, helen], by simp [hlen.2.1, helen],
    by simp [hlen.2.2, helen], rfl, rfl, ?_⟩
  intro k hk
  have hk2 : k < p.priceData.dates.enum.length := by rwa [helen]
  have hrec :=
    runLoop_getD p.fees p.priceData p.rebalancer p.priceData.dates.enum
      { cash := p.initCash, holdings := p.assets.map (fun a => (a.symbol, 0)) } k hk2
  have hidx : (p.priceData.dates.enum.getD k (0, 0)).1 = k := by
    rw [List.enum, enumFrom_getD p.priceData.dates 0 k hk]
    simp
  rw [hidx] at hrec
  exact ⟨by simpa [stateAfter] using hrec.2.1, by simpa [stateAfter] using hrec.1,
    by simpa [stateAfter] using hrec.2.2⟩

/-- C3 witness: the concrete two-day, one-asset portfolio. -/
theorem claim_C3_witness :
    ∃ r : BacktestResult, neverRebalancePortfolio.run = Except.ok r ∧
      r.portfolio.value.length = neverRebalancePortfolio.priceData.dates.length + 1 ∧
      r.portfolio.cash.length = neverRebalancePortfolio.priceData.dates.length + 1 ∧
      r.portfolio.weights.length = neverRebalancePortfolio.priceData.dates.length + 1 ∧
      r.portfolio.value.getD 0 0 = neverRebalancePortfolio.initCash ∧
      r.portfolio.cash.getD 0 0 = neverRebalancePortfolio.initCash ∧
      ∀ k, k < neverRebalancePortfolio.priceData.dates.length →
        r.portfolio.cash.getD (k + 1) 0 = (stateAfter neverRebalancePortfolio (k + 1)).cash ∧
        r.portfolio.value.getD (k + 1) 0 =
          (recordDay neverRebalancePortfolio.priceData k
            (stateAfter neverRebalancePortfolio (k + 1))).1 ∧
        r.portfolio.weights.getD (k + 1) [] =
          (recordDay neverRebalancePortfolio.priceData k
            (stateAfter neverRebalancePortfolio (k + 1))).2 :=
  claim_C3_run_records neverRebalancePortfolio
    (by simp [neverRebalancePortfolio, setPriceData, basePortfolio, NewPortfolio])

/-- A policy that never fires leaves the simulation state untouched. -/
lemma afterDays_none (fees : ℚ) (pd : PriceData) (reb : RebalancerFunc)
    (hreb : ∀ d, reb d = none) :
    ∀ (pairs : List (ℕ × ℤ)) (st : SimState) (k : ℕ),
      afterDays fees pd reb pairs st k = st := by
  intro pairs
  induction pairs with
  | nil => intro st k; cases k <;> rfl
  | cons pr rest ih =>
    intro st k
    cases k with
    | zero => rfl
    | succ k =>
      show afterDays fees pd reb rest (execRebalance fees pd pr.1 st (reb pr.2)) k = st
      rw [hreb pr.2]
      exact ih st k

/-- Valuing a state whose holdings are all zero yields its cash. -/
lemma recordDay_zero_holdings (pd : PriceData) (i : ℕ) (st : SimState)
    (hz : ∀ x ∈ st.holdings, x.2 = 0) : (recordDay pd i st).1 = st.cash := by
  unfold recordDay
  have : ∀ (hs : List (String × ℚ)) (acc : ℚ × List (String × ℚ)),
      (∀ x ∈ hs, x.2 = 0) →
        (hs.foldl (fun acc sq =>
          let assetValue := sq.2 * priceAt pd sq.1 i
          let totalValue := acc.1 + assetValue
          (totalValue, acc.2 ++ [(sq.1, assetValue / totalValue)])) acc).1 = acc.1 := by
    intro hs
    induction hs with
    | nil => intro acc _; rfl
    | cons x rest ih =>
      intro acc hmem
      rw [List.foldl_cons]
      rw [ih _ (fun y hy => hmem y (List.mem_cons_of_mem x hy))]
      simp [hmem x (List.mem_cons_self x rest)]
  exact this st.holdings (st.cash, []) hz

/-- C5 amended: with a rebalance policy that never fires, `Run()` never
invests the initial cash (holdings start at zero and no trade ever
executes), so the terminal recorded value equals the initial cash — not
the buy-and-hold value implied by the initial weights. -/
theorem claim_C5_amended (p : Portfolio) (hfees : p.fees = 0)
    (hreb : ∀ d, p.rebalancer d = none) (hne : p.priceData.dates ≠ []) :
    ∃ r : BacktestResult, p.run = Except.ok r ∧
      r.portfolio.value.getD p.priceData.dates.length 0 = p.initCash := by
  simp only [Portfolio.run, if_neg hne]
  refine ⟨_, rfl, ?_⟩
  have hN : 1 ≤ p.priceData.dates.length :=
    List.length_pos.mpr hne
  have hk : p.priceData.dates.length - 1 < p.priceData.dates.enum.length := by
    rw [List.enum_length]
    omega
  have hrec :=
    (runLoop_getD p.fees p.priceData p.rebalancer p.priceData.dates.enum
      { cash := p.initCash, holdings := p.assets.map (fun a => (a.symbol, 0)) }
      (p.priceData.dates.length - 1) hk).1
  rw [afterDays_none p.fees p.priceData p.rebalancer hreb] at hrec
  rw [recordDay_zero_holdings _ _ _ (by
    intro x hx
    obtain ⟨a, _, rfl⟩ := List.mem_map.mp hx
    rfl)] at hrec
  have hsucc : p.priceData.dates.length = p.priceData.dates.length - 1 + 1 := by
    omega
  rw [hsucc, List.getD_cons_succ, hrec]

/-- C5 counterexample: the two-day doubling series with fees 0 and a
never-firing policy.  The code's terminal value is the uninvested cash
1000, while the buy-and-hold terminal value implied by the initial
weights and price ratios is 2000. -/
theorem claim_C5_counterexample :
    (neverRebalancePortfolio.run).map (fun r => r.portfolio.value.getD 2 0) =
        Except.ok 1000 ∧
    buyAndHoldTerminal neverRebalancePortfolio = 2000 ∧
    (neverRebalancePortfolio.run).map (fun r => r.portfolio.value.getD 2 0) ≠
        Except.ok (buyAndHoldTerminal neverRebalancePortfolio) := by
  have h1 : (neverRebalancePortfolio.run).map (fun r => r.portfolio.value.getD 2 0) =
      Except.ok 1000 := by
    norm_num [Portfolio.run, neverRebalancePortfolio, basePortfolio, NewPortfolio,
      setPriceData, runLoop, execRebalance, recordDay, priceAt, List.enum,
      List.enumFrom, Except.map, List.cons_ne_nil, if_neg]
  have h2 : buyAndHoldTerminal neverRebalancePortfolio = 2000 := by
    norm_num [buyAndHoldTerminal, neverRebalancePortfolio, basePortfolio,
      NewPortfolio, setPriceData, priceAt]
  refine ⟨h1, h2, ?_⟩
  rw [h1, h2]
  intro h
  exact absurd (Except.ok.inj h) (by norm_num)

/-- C5 amended witness: the amended statement applied at the concrete
two-day portfolio. -/
theorem claim_C5_amended_witness :
    ∃ r : BacktestResult, neverRebalancePortfolio.run = Except.ok r ∧
      r.portfolio.value.getD neverRebalancePortfolio.priceData.dates.length 0 =
        neverRebalancePortfolio.initCash :=
  claim_C5_amended neverRebalancePortfolio rfl (fun _ => rfl)
    (by simp [neverRebalancePortfolio, setPriceData, basePortfolio, NewPortfolio])

/-- C9 counterexample: a price series whose symbol sequence length (1)
disagrees with its date sequence length (2) is nonetheless accepted into
the engine unchanged — construction does not fail, contradicting the
claim that such a series can never be accepted. -/
theorem claim_C9_counterexample :
    ¬ mismatchedPriceData.wellFormed ∧
    (setPriceData basePortfolio mismatchedPriceData).priceData =
      mismatchedPriceData := by
  constructor
  · intro h
    have := h ("A", [100]) (by simp [mismatchedPriceData])
    simp [mismatchedPriceData] at this
  · rfl

/-- C9 amended: `SetPriceData` performs no validation at all — every
price series, well-formed or not, is stored into the engine unchanged;
no `MalformedData` failure path exists in the code. -/
theorem claim_C9_amended (p : Portfolio) (pd : PriceData) :
    (setPriceData p pd).priceData = pd ∧
    (setPriceData p pd) = { p with priceData := pd } :=
  ⟨rfl, rfl⟩

/-- The code's standard deviation is the population standard deviation
on nonempty data. -/
lemma calcStdDev_eq_pop (sq : ℚ → ℚ) (xs : List ℚ) (h : xs ≠ []) :
    calcStdDev sq xs = popStdDev sq xs := by
  unfold calcStdDev popStdDev popMean
  rw [if_neg (by simpa using h)]
  show sq ((xs.map (fun v =>
      (v - xs.sum / (xs.length : ℚ)) * (v - xs.sum / (xs.length : ℚ)))).sum /
        (xs.length : ℚ)) = _
  congr 2
  congr 1
  apply List.map_congr_left
  intro a _
  ring

/-- The code's daily-return loop computes the consecutive-pair return
series. -/
lemma dailyReturns_eq_spec (value : List ℚ) :
    (List.range (value.length - 1)).map (fun i =>
      value.getD (i + 1) 0 / value.getD i 0 - 1) = specDailyReturns value := by
  have aux : ∀ (vs : List ℚ) (w : ℚ),
      (List.range vs.length).map (fun i =>
        vs.getD i 0 / ((w :: vs).getD i 0) - 1) =
        List.zipWith (fun a b => a / b - 1) vs (w :: vs) := by
    intro vs
    induction vs with
    | nil => intro w; simp
    | cons u us ih =>
      intro w
      rw [List.length_cons, List.range_succ_eq_map, List.map_cons, List.map_map]
      simp only [List.getD_cons_zero, List.zipWith_cons_cons]
      congr 1
      rw [← ih u]
      apply List.map_congr_left
      intro i _
      simp [Function.comp]
  cases value with
  | nil => simp [specDailyReturns]
  | cons w vs =>
    unfold specDailyReturns
    simp only [List.tail_cons, List.length_cons, Nat.add_sub_cancel]
    rw [← aux vs w]
    apply List.map_congr_left
    intro i _
    rfl

/-- The running-peak fold of `calcMaxDrawdown`, generalized over the
initial accumulator. -/
lemma maxDrawdown_foldl (l : List ℚ) :
    ∀ (m p : ℚ),
      (l.foldl (fun acc value =>
        let peak := if value > acc.2 then value else acc.2
        let drawdown := (peak - value) / peak
        (if drawdown > acc.1 then drawdown else acc.1, peak)) (m, p)).1 =
      ((List.range l.length).map (fun i =>
        let pk := (l.take (i + 1)).foldl max p
        (pk - l.getD i 0) / pk)).foldl max m := by
  induction l with
  | nil => intro m p; rfl
  | cons v vs ih =>
    intro m p
    have hpeak : (if v > p then v else p) = max p v := by
      rcases le_or_lt v p with h | h
      · rw [if_neg (not_lt.mpr h), max_eq_left h]
      · rw [if_pos h, max_eq_right h.le]
    have hdd : ∀ d : ℚ, (if d > m then d else m) = max m d := by
      intro d
      rcases le_or_lt d m with h | h
      · rw [if_neg (not_lt.mpr h), max_eq_left h]
      · rw [if_pos h, max_eq_right h.le]
    rw [List.foldl_cons, List.length_cons, List.range_succ_eq_map, List.map_cons,
      List.map_map, List.foldl_cons]
    simp only [hpeak, hdd, List.take_succ_cons, List.foldl_cons, List.getD_cons_zero]
    rw [ih (max m ((max p v - v) / max p v)) (max p v)]
    congr 1

/-- The code's max drawdown equals the indexed running-peak formula. -/
lemma calcMaxDrawdown_eq_spec (values : List ℚ) :
    calcMaxDrawdown values = specMaxDrawdown values := by
  unfold calcMaxDrawdown specMaxDrawdown runningPeak
  by_cases h : values.length < 2
  · rw [if_pos h]
    rcases values with _ | ⟨v, _ | ⟨w, rest⟩⟩
    · rfl
    · simp [List.range_succ]
    · exfalso
      simp only [List.length_cons] at h
      omega
  · rw [if_neg h, maxDrawdown_foldl]

/-- C4: `Stats()` returns the empty result set on fewer than two points;
on at least two points it returns exactly the six keyed statistics:
`total_return` and `annualized_return` (over `years = numDays/252`)
scaled by 100, `volatility` as the population standard deviation of the
consecutive daily returns times `sqrt 252`, scaled by 100,
`sharpe_ratio` as annualized return over volatility, `max_drawdown` as
the maximum running-peak drawdown scaled by 100, and `final_value`. -/
theorem claim_C4_stats (sq : ℚ → ℚ) (pw : ℚ → ℚ → ℚ) (value : List ℚ)
    (dates : List ℤ) :
    (value.length < 2 → Stats sq pw value dates = []) ∧
    (2 ≤ value.length →
      Stats sq pw value dates =
        [("total_return",
            (value.getD (value.length - 1) 0 / value.getD 0 0 - 1) * 100),
         ("annualized_return",
            (pw (1 + (value.getD (value.length - 1) 0 / value.getD 0 0 - 1))
              (1 / ((dates.length : ℚ) / 252)) - 1) * 100),
         ("volatility", popStdDev sq (specDailyReturns value) * sq 252 * 100),
         ("sharpe_ratio",
            (pw (1 + (value.getD (value.length - 1) 0 / value.getD 0 0 - 1))
              (1 / ((dates.length : ℚ) / 252)) - 1) /
              (popStdDev sq (specDailyReturns value) * sq 252)),
         ("max_drawdown", specMaxDrawdown value * 100),
         ("final_value", value.getD (value.length - 1) 0)]) := by
  constructor
  · intro h
    unfold Stats
    rw [if_pos h]
  · intro h
    have hne : specDailyReturns value ≠ [] := by
      unfold specDailyReturns
      intro hcon
      have := congrArg List.length hcon
      rw [List.length_zipWith, List.length_tail] at this
      simp at this
      omega
    unfold Stats
    rw [if_neg (not_lt.mpr h)]
    simp only [dailyReturns_eq_spec, calcMaxDrawdown_eq_spec,
      calcStdDev_eq_pop sq _ hne]

/-- C4 witness: the statistics of the two-point series `[100, 110]` over
a one-day date series, with the identity square root and first-argument
power stand-ins: a 10% total return, zero volatility and drawdown. -/
theorem claim_C4_witness :
    Stats sqId pwFst [100, 110] [0] =
      [("total_return", 10), ("annualized_return", 10), ("volatility", 0),
       ("sharpe_ratio", 0), ("max_drawdown", 0), ("final_value", 110)] := by
  have h := (claim_C4_stats sqId pwFst [100, 110] [0]).2 (by norm_num)
  rw [h]
  norm_num [popStdDev, popMean, specDailyReturns, specMaxDrawdown, runningPeak,
    sqId, pwFst, List.range_succ_eq_map]

/-- Positional read of a constant list. -/
lemma getD_replicate (v : ℚ) {n i : ℕ} (h : i < n) :
    (List.replicate n v).getD i 0 = v := by
  simp [List.getD_eq_getElem?_getD, List.getElem?_replicate, h]

/-- Summing a constant-zero list in the finiteness model. -/
lemma esum_replicate_zero (k : ℕ) : esum (List.replicate k (fin 0)) = fin 0 := by
  have aux : ∀ (j : ℕ) (a : ℚ),
      List.foldl eadd (fin a) (List.replicate j (fin 0)) = fin a := by
    intro j
    induction j with
    | zero => intro a; rfl
    | succ j ih =>
      intro a
      rw [List.replicate_succ, List.foldl_cons]
      have : eadd (fin a) (fin 0) = fin a := by simp [eadd, fin]
      rw [this, ih a]
  exact aux k 0

/-- The standard deviation of a constant-zero return series is zero in
the finiteness model, given the IEEE identity `sqrt 0 = 0`. -/
lemma calcStdDevE_replicate_zero (sqE : E → E) (k : ℕ) (hk : k ≠ 0)
    (hsq0 : sqE (fin 0) = fin 0) :
    calcStdDevE sqE (List.replicate k (fin 0)) = fin 0 := by
  unfold calcStdDevE
  rw [if_neg (by simpa using hk)]
  have hkQ : (k : ℚ) ≠ 0 := Nat.cast_ne_zero.mpr hk
  have hmean : ediv (esum (List.replicate k (fin 0))) (fin (k : ℚ)) = fin 0 := by
    rw [esum_replicate_zero]
    simp [ediv, fin, hkQ]
  simp only [List.length_replicate, hmean, List.map_replicate]
  have hzero : emul (esub (fin 0) (fin 0)) (esub (fin 0) (fin 0)) = fin 0 := by
    simp [emul, esub, fin]
  rw [hzero, esum_replicate_zero]
  have : ediv (fin 0) (fin (k : ℚ)) = fin 0 := by simp [ediv, fin, hkQ]
  rw [this, hsq0]

/-- The drawdown pass over a constant nonzero series stays at zero in
the finiteness model. -/
lemma calcMaxDrawdownE_replicate (n : ℕ) (v : ℚ) (hv : v ≠ 0) (hn : 2 ≤ n) :
    calcMaxDrawdownE (List.replicate n v) = fin 0 := by
  unfold calcMaxDrawdownE
  rw [if_neg (by simp; omega)]
  have aux : ∀ (k : ℕ),
      List.foldl (fun acc value =>
        let peak := if value > acc.2 then value else acc.2
        let drawdown := ediv (fin (peak - value)) (fin peak)
        (if egt drawdown acc.1 then drawdown else acc.1, peak))
        (fin 0, v) (List.replicate k v) = (fin 0, v) := by
    intro k
    induction k with
    | zero => rfl
    | succ k ih =>
      rw [List.replicate_succ, List.foldl_cons]
      have hstep : (if v > v then v else v) = v := by simp
      have hdd : ediv (fin (v - v)) (fin v) = fin 0 := by
        simp [ediv, fin, hv]
      simp only [hstep, hdd]
      have hegt : egt (fin 0) (fin 0) = false := by simp [egt, fin]
      simp only [hegt, Bool.false_eq_true, if_false]
      exact ih
  obtain ⟨m, rfl⟩ : ∃ m, n = m + 1 := ⟨n - 1, by omega⟩
  have hhead : (List.replicate (m + 1) v).headD 0 = v := by
    rw [List.replicate_succ]
    rfl
  rw [hhead, aux (m + 1)]

/-- The constant series' daily returns are all exactly zero in the
finiteness model when the constant is nonzero. -/
lemma dailyReturnsE_replicate (n : ℕ) (v : ℚ) (hv : v ≠ 0) :
    (List.range (n - 1)).map (fun i =>
      esub (ediv (fin ((List.replicate n v).getD (i + 1) 0))
        (fin ((List.replicate n v).getD i 0))) (fin 1)) =
      List.replicate (n - 1) (fin 0) := by
  rw [List.eq_replicate_iff]
  refine ⟨by simp, ?_⟩
  intro b hb
  obtain ⟨i, hi, rfl⟩ := List.mem_map.mp hb
  have hi2 : i < n - 1 := List.mem_range.mp hi
  rw [getD_replicate v (by omega), getD_replicate v (by omega)]
  simp [ediv, esub, fin, hv, div_self]

/-- C10 amended: on a recorded constant series of length at least 2 with
nonzero constant value, `Stats()` computes `volatility = 0` and then an
unguarded `annualizedReturn / volatility`; the returned map still holds
the full key set, but the `sharpe_ratio` entry is non-finite (IEEE
`0/0 = NaN`).  The square root and power are abstract, constrained only
by the IEEE identities `sqrt 0 = 0`, `pow(1, y) = 1` and the finiteness
of `sqrt 252`. -/
theorem claim_C10_amended (sqE : E → E) (pwE : E → E → E)
    (hsq0 : sqE (fin 0) = fin 0) (hpw1 : ∀ y, pwE (fin 1) y = fin 1)
    (hsq252 : ∃ q : ℚ, sqE (fin 252) = fin q)
    (n : ℕ) (hn : 2 ≤ n) (v : ℚ) (hv : v ≠ 0) (dates : List ℤ) :
    StatsE sqE pwE (List.replicate n v) dates =
      [("total_return", fin 0), ("annualized_return", fin 0),
       ("volatility", fin 0), ("sharpe_ratio", (none : E)),
       ("max_drawdown", fin 0), ("final_value", fin v)] := by
  obtain ⟨q, hq⟩ := hsq252
  unfold StatsE
  rw [if_neg (by simp; omega)]
  simp only [List.length_replicate]
  rw [getD_replicate v (by omega), getD_replicate v (by omega)]
  have hret : esub (ediv (fin v) (fin v)) (fin 1) = fin 0 := by
    simp [ediv, esub, fin, hv, div_self]
  rw [hret, dailyReturnsE_replicate n v hv,
    calcStdDevE_replicate_zero sqE (n - 1) (by omega) hsq0,
    calcMaxDrawdownE_replicate n v hv hn, hq]
  have hvol : emul (fin 0) (fin q) = fin 0 := by simp [emul, fin]
  have hone : eadd (fin 1) (fin 0) = fin 1 := by simp [eadd, fin]
  rw [hvol, hone, hpw1]
  have hann : esub (fin 1) (fin 1) = fin 0 := by simp [esub, fin]
  rw [hann]
  have hsharpe : ediv (fin 0) (fin 0) = none := by simp [ediv, fin]
  rw [hsharpe]
  have hmul0 : emul (fin 0) (fin 100) = fin 0 := by simp [emul, fin]
  rw [hmul0]

/-- C10 counterexample: the all-zero constant series of length 2.  The
daily return `0/0` is non-finite, so the volatility entry is non-finite
rather than 0, falsifying the claim for series whose constant value is
zero. -/
theorem claim_C10_counterexample :
    (StatsE sqSample pwSample [0, 0] [0]).lookup "volatility" = some (none : E) ∧
    (StatsE sqSample pwSample [0, 0] [0]).lookup "volatility" ≠ some (fin 0) := by
  constructor
  · simp [StatsE, calcStdDevE, calcMaxDrawdownE, esum, eadd, esub, emul, ediv,
      egt, fin, sqSample, pwSample, List.lookup, List.range_succ]
  · intro h
    rw [show (StatsE sqSample pwSample [0, 0] [0]).lookup "volatility" =
        some (none : E) by
      simp [StatsE, calcStdDevE, calcMaxDrawdownE, esum, eadd, esub, emul, ediv,
        egt, fin, sqSample, pwSample, List.lookup, List.range_succ]] at h
    simp [fin] at h

/-- C10 amended witness: the constant series of two ones under the
concrete square-root and power stand-ins. -/
theorem claim_C10_witness :
    StatsE sqSample pwSample (List.replicate 2 (1 : ℚ)) [0] =
      [("total_return", fin 0), ("annualized_return", fin 0),
       ("volatility", fin 0), ("sharpe_ratio", (none : E)),
       ("max_drawdown", fin 0), ("final_value", fin 1)] :=
  claim_C10_amended sqSample pwSample rfl (fun y => by simp [pwSample])
    ⟨252, rfl⟩ 2 (by norm_num) 1 (by norm_num) [0]

end Backtester

end DumbFi
